import Mathlib

/-!
Verification development for the ciborium CBOR serializer
(`src/ciborium/src/ser/mod.rs`) and the deserializer behaviour described by
the specification and exercised by `src/ciborium/tests/deserializer.rs`.

The serializer core is embedded shallowly: every `serialize_*` method of
`impl ser::Serializer for &mut Serializer<W>` becomes a Lean function that
returns the sequence of events (`Encoder::push` of a header, or
`Encoder::write_all` of raw bytes) the Rust code would emit to the header
codec.  The sink itself (ciborium_ll / ciborium_io) is an external
collaborator in the source; it is modelled as an infallible event list, so
the only failure the embedding tracks is the domain error of the tag
extraction helper.
-/

set_option maxRecDepth 4000

namespace Ciborium

/-- CBOR wire headers, mirroring `ciborium_ll::Header`.  Float payloads are
carried as their 64-bit IEEE-754 bit pattern, since no arithmetic on floats
is performed by the serializer core. -/
inductive Header where
  | Positive (n : Nat)
  | Negative (n : Nat)
  | Float (bits : Nat)
  | Text (len : Option Nat)
  | Bytes (len : Option Nat)
  | Array (len : Option Nat)
  | Map (len : Option Nat)
  | Tag (n : Nat)
  | Simple (n : Nat)
  | Break
deriving Repr, DecidableEq

/-- One call against the header codec: `Encoder::push(header)` or
`Encoder::write_all(bytes)`. -/
inductive Event where
  | header (h : Header)
  | raw (bs : List Nat)
deriving Repr, DecidableEq

/-- The `simple::FALSE` from ciborium_ll. -/
def simpleFALSE : Nat := 20
/-- The `simple::TRUE` from ciborium_ll. -/
def simpleTRUE : Nat := 21
/-- The `simple::NULL` from ciborium_ll. -/
def simpleNULL : Nat := 22
/-- The `tag::BIGPOS` from ciborium_ll. -/
def tagBIGPOS : Nat := 2
/-- The `tag::BIGNEG` from ciborium_ll. -/
def tagBIGNEG : Nat := 3

/-- The `as u64` cast of a (possibly negative) integer: the value of the
two's-complement bit pattern read as an unsigned 64-bit integer. -/
def toU64 (v : Int) : Nat := (v % (2 ^ 64 : Int)).toNat

/-- The `as u128` cast of a (possibly negative) integer. -/
def toU128 (v : Int) : Nat := (v % (2 ^ 128 : Int)).toNat

/-- Big-endian byte representation of `v` on exactly `n` bytes
(`u128::to_be_bytes` is `beBytes 16`). -/
def beBytes : Nat → Nat → List Nat
  | 0, _ => []
  | n + 1, v => beBytes n (v / 256) ++ [v % 256]

/-- Value of a big-endian byte list. -/
def beToNat (l : List Nat) : Nat := l.foldl (fun a b => a * 256 + b) 0

/-- The leading-zero stripping loop of `serialize_i128` / `serialize_u128`:
`while !slice.is_empty() && slice[0] == 0 { slice = &slice[1..]; }`. -/
def stripZeros : List Nat → List Nat
  | [] => []
  | b :: rest => if b = 0 then stripZeros rest else b :: rest

/-- The `Serializer::serialize_u64`: a single `Positive` header. -/
def serialize_u64 (v : Nat) : List Event :=
  [Event.header (Header.Positive v)]

/-- The `Serializer::serialize_i64`: `Positive(v as u64)` when non-negative,
`Negative(v as u64 ^ !0)` when negative. -/
def serialize_i64 (v : Int) : List Event :=
  if v < 0 then [Event.header (Header.Negative (toU64 v ^^^ (2 ^ 64 - 1)))]
  else [Event.header (Header.Positive (toU64 v))]

/-- The `Serializer::serialize_i8` widens to `serialize_i64`. -/
def serialize_i8 (v : Int) : List Event := serialize_i64 v

/-- The `Serializer::serialize_i16` widens to `serialize_i64`. -/
def serialize_i16 (v : Int) : List Event := serialize_i64 v

/-- The `Serializer::serialize_i32` widens to `serialize_i64`. -/
def serialize_i32 (v : Int) : List Event := serialize_i64 v

/-- The `Serializer::serialize_u8` widens to `serialize_u64`. -/
def serialize_u8 (v : Nat) : List Event := serialize_u64 v

/-- The `Serializer::serialize_u16` widens to `serialize_u64`. -/
def serialize_u16 (v : Nat) : List Event := serialize_u64 v

/-- The `Serializer::serialize_u32` widens to `serialize_u64`. -/
def serialize_u32 (v : Nat) : List Event := serialize_u64 v

/-- The `Serializer::serialize_i128`: choose `tag::BIGPOS` with `raw = v as u128`
for non-negative `v`, `tag::BIGNEG` with `raw = (v as u128) ^ !0` for negative
`v`; if `raw` fits in a `u64` push a plain `Positive`/`Negative` header,
otherwise push `Tag(tag)`, `Bytes(Some(len))` and the big-endian bytes of
`raw` with leading zeros stripped. -/
def serialize_i128 (v : Int) : List Event :=
  let tag : Nat := if v < 0 then tagBIGNEG else tagBIGPOS
  let raw : Nat := if v < 0 then toU128 v ^^^ (2 ^ 128 - 1) else toU128 v
  if raw < 2 ^ 64 then
    if v < 0 then [Event.header (Header.Negative raw)]
    else [Event.header (Header.Positive raw)]
  else
    let slice := stripZeros (beBytes 16 raw)
    [Event.header (Header.Tag tag),
     Event.header (Header.Bytes (some slice.length)),
     Event.raw slice]

/-- The `Serializer::serialize_u128`: delegate to `serialize_u64` when the value
fits, otherwise `Tag(BIGPOS)`, `Bytes(Some(len))` and the stripped big-endian
bytes. -/
def serialize_u128 (v : Nat) : List Event :=
  if v < 2 ^ 64 then serialize_u64 v
  else
    let slice := stripZeros (beBytes 16 v)
    [Event.header (Header.Tag tagBIGPOS),
     Event.header (Header.Bytes (some slice.length)),
     Event.raw slice]


/-! ### The serde data model seen by the serializer

A `Value` is one shape of serde's data model together with the child values
the caller would feed to the returned collection serializer.  Declared
lengths are kept separate from the child lists where the Rust API keeps them
separate (`serialize_seq`, `serialize_map`, `serialize_struct`,
`serialize_tuple_variant`, `serialize_struct_variant` all receive a length
argument that the serializer never checks against the number of child
calls). -/

inductive Value where
  | VBool (b : Bool)
  | VI64 (v : Int)
  | VI128 (v : Int)
  | VU64 (v : Nat)
  | VU128 (v : Nat)
  | VF64 (bits : Nat)
  | VChar (c : Char)
  | VStr (s : String)
  | VBytes (bs : List Nat)
  | VNone
  | VSome (v : Value)
  | VUnit
  | VUnitStruct (name : String)
  | VUnitVariant (name : String) (index : Nat) (variant : String)
  | VNewtypeStruct (name : String) (v : Value)
  | VNewtypeVariant (name : String) (index : Nat) (variant : String)
      (v : Value)
  | VSeq (length : Option Nat) (items : List Value)
  | VTupleVariant (name : String) (index : Nat) (variant : String)
      (length : Nat) (items : List Value)
  | VMap (length : Option Nat) (entries : List (Value × Value))
  | VStruct (name : String) (length : Nat) (fields : List (String × Value))
  | VStructVariant (name : String) (index : Nat) (variant : String)
      (length : Nat) (fields : List (String × Value))

/-- UTF-8 bytes of a string (`str::as_bytes`). -/
def utf8Bytes (s : String) : List Nat := s.toUTF8.toList.map (fun b => b.toNat)

/-- The `Serializer::serialize_str`: `Text(Some(bytes.len()))` then the raw
bytes. -/
def strEvents (s : String) : List Event :=
  let bytes := utf8Bytes s
  [Event.header (Header.Text (some bytes.length)), Event.raw bytes]

/-- Modelled from the spec: `crate::tag::Serializer` (the Tag Extraction
Helper, spec §4.3) is not among the provided sources.  Per the spec it is a
throwaway sink accepting only unsigned-integer shapes whose value fits in 64
bits, returning that value as the tag number, and failing on any other
shape. -/
def tagExtract : Value → Except Unit Nat
  | .VU64 v => .ok v
  | .VU128 v => if v < 2 ^ 64 then .ok v else .error ()
  | _ => .error ()

mutual

/-- One `value.serialize(&mut serializer)` call: the event sequence the
serializer in `ser/mod.rs` pushes for this shape, or the domain error it
fails with.  The sink is infallible in this embedding, so the only error is
the tag extraction failure `Error::Value("expected tag")`. -/
def serializeValue : Value → Except String (List Event)
  | .VBool b =>
    .ok [Event.header (Header.Simple (if b then simpleTRUE else simpleFALSE))]
  | .VI64 v => .ok (serialize_i64 v)
  | .VI128 v => .ok (serialize_i128 v)
  | .VU64 v => .ok (serialize_u64 v)
  | .VU128 v => .ok (serialize_u128 v)
  | .VF64 bits => .ok [Event.header (Header.Float bits)]
  | .VChar c => .ok (strEvents (String.singleton c))
  | .VStr s => .ok (strEvents s)
  | .VBytes bs =>
    .ok [Event.header (Header.Bytes (some bs.length)), Event.raw bs]
  | .VNone => .ok [Event.header (Header.Simple simpleNULL)]
  | .VSome v => serializeValue v
  | .VUnit => .ok [Event.header (Header.Simple simpleNULL)]
  | .VUnitStruct _ => .ok [Event.header (Header.Simple simpleNULL)]
  | .VUnitVariant _ _ variant => .ok (strEvents variant)
  | .VNewtypeStruct _ v => serializeValue v
  | .VNewtypeVariant name _ variant v =>
    (serializeValue v).map (fun inner =>
      if name ≠ "@@TAG@@" ∨ variant ≠ "@@UNTAGGED@@" then
        Event.header (Header.Map (some 1)) :: strEvents variant ++ inner
      else inner)
  | .VSeq length items =>
    (serializeList items).map (fun body =>
      Event.header (Header.Array length) :: body ++
        if length.isNone then [Event.header Header.Break] else [])
  | .VTupleVariant name _ variant length items =>
    if name = "@@TAG@@" ∧ variant = "@@TAGGED@@" then
      serializeTagFields items
    else
      (serializeList items).map (fun body =>
        Event.header (Header.Map (some 1)) :: strEvents variant ++
          (Event.header (Header.Array (some length)) :: body))
  | .VMap length entries =>
    (serializeEntries entries).map (fun body =>
      Event.header (Header.Map length) :: body ++
        if length.isNone then [Event.header Header.Break] else [])
  | .VStruct _ length fields =>
    (serializeFields fields).map (fun body =>
      Event.header (Header.Map (some length)) :: body)
  | .VStructVariant _ _ variant length fields =>
    (serializeFields fields).map (fun body =>
      Event.header (Header.Map (some 1)) :: strEvents variant ++
        (Event.header (Header.Map (some length)) :: body))

/-- The `serialize_element` / plain `serialize_field` calls of a collection
serializer whose `tag` flag is false: each child value serializes through
the same serializer. -/
def serializeList : List Value → Except String (List Event)
  | [] => .ok []
  | v :: rest =>
    match serializeValue v with
    | .error e => .error e
    | .ok es1 =>
      match serializeList rest with
      | .error e => .error e
      | .ok es2 => .ok (es1 ++ es2)

/-- The `SerializeMap`: `serialize_key` then `serialize_value` per entry, both
through the same serializer. -/
def serializeEntries : List (Value × Value) → Except String (List Event)
  | [] => .ok []
  | (k, v) :: rest =>
    match serializeValue k with
    | .error e => .error e
    | .ok ke =>
      match serializeValue v with
      | .error e => .error e
      | .ok ve =>
        match serializeEntries rest with
        | .error e => .error e
        | .ok es => .ok (ke ++ ve ++ es)

/-- The `SerializeStruct::serialize_field` / `SerializeStructVariant`: the field
name serializes as a string, then the field value. -/
def serializeFields : List (String × Value) → Except String (List Event)
  | [] => .ok []
  | (k, v) :: rest =>
    match serializeValue v with
    | .error e => .error e
    | .ok ve =>
      match serializeFields rest with
      | .error e => .error e
      | .ok es => .ok (strEvents k ++ ve ++ es)

/-- The `SerializeTupleVariant::serialize_field` when the collection was opened
with `tag = true`: the first field routes through the tag extraction helper
and, on success, a bare `Tag` header is pushed and the flag is cleared;
failure is `Error::Value("expected tag")`.  Remaining fields serialize
normally. -/
def serializeTagFields : List Value → Except String (List Event)
  | [] => .ok []
  | v :: rest =>
    match tagExtract v with
    | .ok x =>
      (serializeList rest).map (fun es => Event.header (Header.Tag x) :: es)
    | .error _ => .error "expected tag"

end

/-! ### Wire bytes

The byte-level packing of one header is the Header Codec's job, an external
collaborator of the core (spec §4.1); its sources are not under `src/`. -/

/-- Modelled from the spec: the Header Codec (spec §4.1) packs one
(major type, argument) pair into wire bytes, choosing the minimal argument
width, per RFC 8949 and the canonical vectors of spec §8. -/
def majorArg (major arg : Nat) : List Nat :=
  if arg < 24 then [32 * major + arg]
  else if arg < 2 ^ 8 then (32 * major + 24) :: beBytes 1 arg
  else if arg < 2 ^ 16 then (32 * major + 25) :: beBytes 2 arg
  else if arg < 2 ^ 32 then (32 * major + 26) :: beBytes 4 arg
  else (32 * major + 27) :: beBytes 8 arg

/-- Modelled from the spec: the bytes the Header Codec writes for one pushed
header.  Indefinite lengths use additional-information 31; `Break` is the
reserved byte `0xFF`. -/
def headerBytes : Header → List Nat
  | .Positive n => majorArg 0 n
  | .Negative n => majorArg 1 n
  | .Bytes (some n) => majorArg 2 n
  | .Bytes none => [32 * 2 + 31]
  | .Text (some n) => majorArg 3 n
  | .Text none => [32 * 3 + 31]
  | .Array (some n) => majorArg 4 n
  | .Array none => [32 * 4 + 31]
  | .Map (some n) => majorArg 5 n
  | .Map none => [32 * 5 + 31]
  | .Tag n => majorArg 6 n
  | .Simple n => majorArg 7 n
  | .Float bits => (32 * 7 + 27) :: beBytes 8 bits
  | .Break => [255]

/-- Bytes of one sink event. -/
def eventBytes : Event → List Nat
  | .header h => headerBytes h
  | .raw bs => bs

/-- The full byte stream of an event sequence. -/
def eventsBytes (es : List Event) : List Nat := (es.map eventBytes).flatten

/-- The wire bytes `into_writer` produces for a value. -/
def wireBytes (v : Value) : Except String (List Nat) :=
  (serializeValue v).map eventsBytes

/-! ### The deserializer

Only the tests and a caller of `Deserializer::from_reader` are under
`src/`; the Value Deserializer itself is modelled from the spec (§4.4). -/

/-- Decode-side errors (spec §7). -/
inductive DErr where
  | unexpectedEnd
  | malformed
  | recursionLimitExceeded
deriving Repr, DecidableEq

/-- Decoded generic values. -/
inductive DV where
  | int (n : Int)
  | float (bits : Nat)
  | bytes (bs : List Nat)
  | text (bs : List Nat)
  | arr (vs : List DV)
  | map (kvs : List (DV × DV))
  | tagged (t : Nat) (v : DV)
  | simple (n : Nat)

/-- Read exactly `n` raw bytes (`read_exact`, spec §4.1). -/
def readBytes (n : Nat) (input : List Nat) :
    Except DErr (List Nat × List Nat) :=
  if n ≤ input.length then .ok (input.take n, input.drop n)
  else .error .unexpectedEnd

/-- Modelled from the spec: `pull_header` of the Header Codec (spec §4.1).
The initial byte holds the major type in its top three bits and the
additional information in its low five bits; information 24–27 reads a
1/2/4/8-byte big-endian argument, 28–30 is malformed, 31 marks an
indefinite length (or `Break` under major type 7). -/
def pullHeader (input : List Nat) : Except DErr (Header × List Nat) :=
  match input with
  | [] => .error .unexpectedEnd
  | ib :: rest =>
    let major := ib / 32
    let info := ib % 32
    if 28 ≤ info ∧ info ≤ 30 then .error .malformed
    else if info = 31 then
      match major with
      | 2 => .ok (Header.Bytes none, rest)
      | 3 => .ok (Header.Text none, rest)
      | 4 => .ok (Header.Array none, rest)
      | 5 => .ok (Header.Map none, rest)
      | 7 => .ok (Header.Break, rest)
      | _ => .error .malformed
    else
      let argRead : Except DErr (Nat × List Nat) :=
        if info < 24 then .ok (info, rest)
        else
          match readBytes (2 ^ (info - 24)) rest with
          | .ok p => .ok (beToNat p.1, p.2)
          | .error e => .error e
      match argRead with
      | .error e => .error e
      | .ok (arg, rest1) =>
        match major with
        | 0 => .ok (Header.Positive arg, rest1)
        | 1 => .ok (Header.Negative arg, rest1)
        | 2 => .ok (Header.Bytes (some arg), rest1)
        | 3 => .ok (Header.Text (some arg), rest1)
        | 4 => .ok (Header.Array (some arg), rest1)
        | 5 => .ok (Header.Map (some arg), rest1)
        | 6 => .ok (Header.Tag arg, rest1)
        | _ => if 25 ≤ info then .ok (Header.Float arg, rest1)
               else .ok (Header.Simple arg, rest1)

mutual

/-- Modelled from the spec: the Value Deserializer (spec §4.4) restricted to
definite-length items, the forms the claims below exercise.  The first
argument is the remaining-depth counter seeded from the recursion limit:
every decode call consumes one unit on entry, failing with
`recursionLimitExceeded` when none is left before consuming any input, and
nested calls (array element, map entry, tag payload) run on the decremented
counter, which is restored for siblings. -/
def decodeD : Nat → List Nat → Except DErr (DV × List Nat)
  | 0, _ => .error .recursionLimitExceeded
  | r + 1, input =>
    match pullHeader input with
    | .error e => .error e
    | .ok (h, rest) =>
      match h with
      | .Positive n => .ok (DV.int (Int.ofNat n), rest)
      | .Negative n => .ok (DV.int (-1 - Int.ofNat n), rest)
      | .Float bits => .ok (DV.float bits, rest)
      | .Bytes (some n) =>
        match readBytes n rest with
        | .ok p => .ok (DV.bytes p.1, p.2)
        | .error e => .error e
      | .Text (some n) =>
        match readBytes n rest with
        | .ok p => .ok (DV.text p.1, p.2)
        | .error e => .error e
      | .Array (some k) =>
        match decodeCount r k rest with
        | .ok p => .ok (DV.arr p.1, p.2)
        | .error e => .error e
      | .Map (some k) =>
        match decodePairs r k rest with
        | .ok p => .ok (DV.map p.1, p.2)
        | .error e => .error e
      | .Tag t =>
        match decodeD r rest with
        | .ok p => .ok (DV.tagged t p.1, p.2)
        | .error e => .error e
      | .Simple n => .ok (DV.simple n, rest)
      | _ => .error .malformed
termination_by r _input => (r, 0)

/-- The `k` successive array elements, each a nested decode call on the
decremented counter `r`. -/
def decodeCount : Nat → Nat → List Nat → Except DErr (List DV × List Nat)
  | _, 0, input => .ok ([], input)
  | r, k + 1, input =>
    match decodeD r input with
    | .error e => .error e
    | .ok (v, rest) =>
      match decodeCount r k rest with
      | .error e => .error e
      | .ok (vs, rest1) => .ok (v :: vs, rest1)
termination_by r k _input => (r, k + 1)

/-- The `k` successive map entries, key then value, each a nested decode call on
the decremented counter `r`. -/
def decodePairs : Nat → Nat → List Nat →
    Except DErr (List (DV × DV) × List Nat)
  | _, 0, input => .ok ([], input)
  | r, k + 1, input =>
    match decodeD r input with
    | .error e => .error e
    | .ok (kv, rest1) =>
      match decodeD r rest1 with
      | .error e => .error e
      | .ok (vv, rest2) =>
        match decodePairs r k rest2 with
        | .error e => .error e
        | .ok (kvs, rest3) => .ok ((kv, vv) :: kvs, rest3)
termination_by r k _input => (r, k + 1)

end

/-- A document of nesting depth `d + 1`: `d` one-element `Array` headers
(`0x81`) wrapped around the scalar `1` (`0x01`). -/
def nestedDoc : Nat → List Nat
  | 0 => [1]
  | d + 1 => 129 :: nestedDoc d

/-- The value `nestedDoc d` encodes. -/
def nestedVal : Nat → DV
  | 0 => DV.int 1
  | d + 1 => DV.arr [nestedVal d]

/-! ### Arithmetic facts about the byte helpers -/

/-- Complementing against an all-ones mask is subtraction from the mask. -/
theorem xor_all_ones {n a : Nat} (h : a < 2 ^ n) :
    a ^^^ (2 ^ n - 1) = 2 ^ n - 1 - a := by
  apply Nat.eq_of_testBit_eq
  intro i
  have h1 : 2 ^ n - 1 - a = 2 ^ n - (a + 1) := by omega
  rw [h1, Nat.testBit_two_pow_sub_succ h, Nat.testBit_xor,
    Nat.testBit_two_pow_sub_one]
  by_cases hi : i < n
  · simp [hi]
  · have hb : a.testBit i = false := by
      apply Nat.testBit_lt_two_pow
      calc a < 2 ^ n := h
        _ ≤ 2 ^ i := Nat.pow_le_pow_right (by norm_num) (by omega)
    simp [hi, hb]

theorem beBytes_length (n v : Nat) : (beBytes n v).length = n := by
  induction n generalizing v with
  | zero => rfl
  | succ n ih => simp [beBytes, ih]

theorem beToNat_foldl (l : List Nat) (a : Nat) :
    l.foldl (fun a b => a * 256 + b) a = a * 256 ^ l.length + beToNat l := by
  induction l generalizing a with
  | nil => simp [beToNat]
  | cons b rest ih =>
    simp only [List.foldl_cons, beToNat, List.length_cons, Nat.zero_mul,
      Nat.zero_add]
    rw [ih (a * 256 + b), ih b]
    ring

theorem beToNat_append_one (xs : List Nat) (y : Nat) :
    beToNat (xs ++ [y]) = beToNat xs * 256 + y := by
  simp only [beToNat, List.foldl_append, List.foldl_cons, List.foldl_nil]

theorem beToNat_beBytes (n v : Nat) :
    beToNat (beBytes n v) = v % 256 ^ n := by
  induction n generalizing v with
  | zero => simp [beBytes, beToNat, Nat.mod_one]
  | succ n ih =>
    have hsplit : v % 256 ^ (n + 1) = v / 256 % 256 ^ n * 256 + v % 256 := by
      have := Nat.mod_mul (a := 256) (b := 256 ^ n) (x := v)
      rw [pow_succ, Nat.mul_comm (256 ^ n) 256]
      omega
    rw [beBytes, beToNat_append_one, ih, hsplit]

theorem beToNat_stripZeros (l : List Nat) :
    beToNat (stripZeros l) = beToNat l := by
  induction l with
  | nil => rfl
  | cons b rest ih =>
    by_cases hb : b = 0
    · rw [stripZeros, if_pos hb, ih, hb]
      simp [beToNat]
    · simp [stripZeros, hb]

theorem stripZeros_head_ne_zero (l : List Nat) :
    (stripZeros l).head? ≠ some 0 := by
  induction l with
  | nil => simp [stripZeros]
  | cons b rest ih =>
    by_cases hb : b = 0
    · rw [stripZeros, if_pos hb]; exact ih
    · rw [stripZeros, if_neg hb]
      simp [hb]

theorem stripZeros_ne_nil_of_beToNat_ne_zero (l : List Nat)
    (h : beToNat l ≠ 0) : stripZeros l ≠ [] := by
  intro hnil
  apply h
  rw [← beToNat_stripZeros, hnil]
  rfl

/-! ### Shared lemmas -/

theorem exceptMap_ok {ε α β : Type} (f : α → β) (a : α) :
    (Except.ok a : Except ε α).map f = .ok (f a) := rfl

theorem exceptMap_error {ε α β : Type} (f : α → β) (e : ε) :
    (Except.error e : Except ε α).map f = .error e := rfl

/-- The function `serializeFields` emits, for each field in list order, the field name as
a string immediately followed by the field value's encoding. -/
theorem serializeFields_eq_flatten (fields : List (String × Value))
    (encs : List (List Event))
    (h : List.Forall₂ (fun f e => serializeValue f.2 = .ok e) fields encs) :
    serializeFields fields =
      .ok ((List.zipWith (fun f e => strEvents f.1 ++ e) fields encs).flatten) := by
  induction fields generalizing encs with
  | nil => cases h; rfl
  | cons f fs ih =>
    obtain ⟨k, v⟩ := f
    cases h with
    | cons hfe htail =>
      rename_i e es
      simp only [serializeFields, hfe, ih es htail, List.zipWith_cons_cons,
        List.flatten_cons]
      try simp [List.append_assoc]

/-! ### Claims -/

/-- C3: opening a sequence pushes an `Array` header with the declared
length and opening a map pushes a `Map` header; ending the collection
pushes exactly one `Break` header when the length was `None` and no
`Break` at all when it was `Some n`.  The equations hold for every child
list, whatever its length, so the serializer never checks the child count
against a declared `Some n`. -/
theorem claim_C3 (len : Option Nat) (items : List Value)
    (entries : List (Value × Value)) (body mbody : List Event)
    (hs : serializeList items = .ok body)
    (hm : serializeEntries entries = .ok mbody) :
    serializeValue (Value.VSeq len items) =
      .ok (Event.header (Header.Array len) :: body ++
        (if len.isNone then [Event.header Header.Break] else [])) ∧
    serializeValue (Value.VMap len entries) =
      .ok (Event.header (Header.Map len) :: mbody ++
        (if len.isNone then [Event.header Header.Break] else [])) := by
  constructor <;> simp [serializeValue, hs, hm, exceptMap_ok]

/-- C3 witness: a known length `Some 5` over a single-element child list
still serializes, with no `Break`; an unknown length gets exactly one
`Break`. -/
theorem claim_C3_witness :
    serializeValue (Value.VSeq (some 5) [Value.VU64 7]) =
      .ok [Event.header (Header.Array (some 5)),
           Event.header (Header.Positive 7)] ∧
    serializeValue (Value.VSeq none [Value.VU64 7]) =
      .ok [Event.header (Header.Array none),
           Event.header (Header.Positive 7),
           Event.header Header.Break] := by
  have h1 := (claim_C3 (some 5) [Value.VU64 7] [] [Event.header (Header.Positive 7)] [] rfl rfl).1
  have h2 := (claim_C3 none [Value.VU64 7] [] [Event.header (Header.Positive 7)] [] rfl rfl).1
  simp at h1 h2
  exact ⟨h1, h2⟩

/-- C5: a newtype variant whose (type name, variant name) pair is exactly
the sentinels `("@@TAG@@", "@@UNTAGGED@@")` serializes as the inner value
alone; every other pair serializes as `Map(Some 1)`, the variant name as a
text string, then the inner value. -/
theorem claim_C5 (name : String) (i : Nat) (variant : String) (v : Value) :
    serializeValue (Value.VNewtypeVariant name i variant v) =
      (if name = "@@TAG@@" ∧ variant = "@@UNTAGGED@@" then serializeValue v
       else (serializeValue v).map (fun inner =>
         Event.header (Header.Map (some 1)) :: strEvents variant ++ inner)) := by
  by_cases h : name = "@@TAG@@" ∧ variant = "@@UNTAGGED@@"
  · obtain ⟨h1, h2⟩ := h
    subst h1
    subst h2
    cases hsv : serializeValue v <;> simp [serializeValue, hsv, Except.map]
  · have hne : name ≠ "@@TAG@@" ∨ variant ≠ "@@UNTAGGED@@" := not_and_or.mp h
    simp only [serializeValue, if_neg h]
    cases hsv : serializeValue v <;> simp [hsv, Except.map, if_pos hne]

/-- C6: a named struct with its field count as declared length serializes
as a `Map` header carrying `Some` of the field count, then each field in
list order as its name string immediately followed by its value encoding;
the output order is the input order. -/
theorem claim_C6 (name : String) (fields : List (String × Value))
    (encs : List (List Event))
    (h : List.Forall₂ (fun f e => serializeValue f.2 = .ok e) fields encs) :
    serializeValue (Value.VStruct name fields.length fields) =
      .ok (Event.header (Header.Map (some fields.length)) ::
        (List.zipWith (fun f e => strEvents f.1 ++ e) fields encs).flatten) := by
  simp [serializeValue, serializeFields_eq_flatten fields encs h, exceptMap_ok]

/-- C6 witness: a two-field record emits `Map(Some 2)` then the fields in
declaration order. -/
theorem claim_C6_witness :
    serializeValue (Value.VStruct "S"
        [("b", Value.VU64 9), ("a", Value.VU64 8)].length
        [("b", Value.VU64 9), ("a", Value.VU64 8)]) =
      .ok (Event.header (Header.Map (some 2)) ::
        (List.zipWith (fun (f : String × Value) e => strEvents f.1 ++ e)
          [("b", Value.VU64 9), ("a", Value.VU64 8)]
          [[Event.header (Header.Positive 9)],
           [Event.header (Header.Positive 8)]]).flatten) := by
  exact claim_C6 "S" [("b", Value.VU64 9), ("a", Value.VU64 8)]
    [[Event.header (Header.Positive 9)], [Event.header (Header.Positive 8)]]
    (List.Forall₂.cons rfl (List.Forall₂.cons rfl List.Forall₂.nil))

/-- C9: a unit variant serializes as its variant name text string, and the
output is the same for any two discriminant indices. -/
theorem claim_C9 (name : String) (i j : Nat) (variant : String) :
    serializeValue (Value.VUnitVariant name i variant) =
      serializeValue (Value.VUnitVariant name j variant) ∧
    serializeValue (Value.VUnitVariant name i variant) =
      .ok (strEvents variant) :=
  ⟨rfl, rfl⟩

/-- C10: `Some(v)` serializes exactly as `v` does; `None`, unit and
`Some(())` all serialize as the single `Simple(null)` header, so they are
indistinguishable on the wire. -/
theorem claim_C10 (v : Value) :
    serializeValue (Value.VSome v) = serializeValue v ∧
    serializeValue (Value.VSome Value.VUnit) =
      .ok [Event.header (Header.Simple simpleNULL)] ∧
    serializeValue Value.VNone =
      .ok [Event.header (Header.Simple simpleNULL)] ∧
    serializeValue Value.VUnit = serializeValue Value.VNone :=
  ⟨rfl, rfl, rfl, rfl⟩

/-- C4: a tuple variant with the sentinel pair `("@@TAG@@", "@@TAGGED@@")`
emits no enclosing map or array header: if the first field extracts as an
unsigned 64-bit tag number, a bare `Tag` header is pushed and the remaining
fields follow serialized normally; otherwise serialization fails with the
domain error "expected tag" and no header is pushed.  An unsigned 128-bit
first field extracts exactly when its value fits in 64 bits. -/
theorem claim_C4 (i length : Nat) (first : Value) (rest : List Value) :
    serializeValue
        (Value.VTupleVariant "@@TAG@@" i "@@TAGGED@@" length (first :: rest)) =
      (match tagExtract first with
       | .ok x =>
         (serializeList rest).map
           (fun es => Event.header (Header.Tag x) :: es)
       | .error _ => .error "expected tag") ∧
    (∀ w : Nat, tagExtract (Value.VU128 w) =
      if w < 2 ^ 64 then .ok w else .error ()) := by
  constructor
  · simp [serializeValue, serializeTagFields]
  · intro w
    rfl

/-- The stripped big-endian byte string of a nonzero 128-bit magnitude keeps
the value, is nonempty, and starts with a nonzero byte. -/
theorem stripZeros_beBytes16 (raw : Nat) (hlt : raw < 2 ^ 128)
    (hne : raw ≠ 0) :
    beToNat (stripZeros (beBytes 16 raw)) = raw ∧
    stripZeros (beBytes 16 raw) ≠ [] ∧
    (stripZeros (beBytes 16 raw)).head? ≠ some 0 := by
  have h1 : beToNat (beBytes 16 raw) = raw := by
    rw [beToNat_beBytes]
    have h2 : (256 : Nat) ^ 16 = 2 ^ 128 := by norm_num
    rw [h2]
    exact Nat.mod_eq_of_lt hlt
  refine ⟨by rw [beToNat_stripZeros, h1], ?_, stripZeros_head_ne_zero _⟩
  apply stripZeros_ne_nil_of_beToNat_ne_zero
  rw [h1]
  exact hne

/-- C2: a 64-bit signed integer serializes as exactly one header:
`Positive(v)` when `v ≥ 0`, otherwise `Negative(b)` where the bias `b` is
the bitwise complement of the two's-complement bits, so the true value is
`-1 - b`; narrower signed and unsigned widths widen and follow the same
rule, and an unsigned 64-bit integer is a single `Positive` header. -/
theorem claim_C2 (v : Int) (u : Nat) (h1 : -(2 ^ 63) ≤ v) (h2 : v < 2 ^ 63) :
    (0 ≤ v → serialize_i64 v = [Event.header (Header.Positive v.toNat)]) ∧
    (v < 0 → ∃ b : Nat,
      serialize_i64 v = [Event.header (Header.Negative b)] ∧
      (b : Int) = -1 - v ∧ b < 2 ^ 64) ∧
    serialize_u64 u = [Event.header (Header.Positive u)] ∧
    serialize_i8 v = serialize_i64 v ∧
    serialize_i16 v = serialize_i64 v ∧
    serialize_i32 v = serialize_i64 v ∧
    serialize_u8 u = serialize_u64 u ∧
    serialize_u16 u = serialize_u64 u ∧
    serialize_u32 u = serialize_u64 u := by
  refine ⟨?_, ?_, rfl, rfl, rfl, rfl, rfl, rfl, rfl⟩
  · intro hv
    have hu : toU64 v = v.toNat := by unfold toU64; omega
    rw [serialize_i64, if_neg (by omega), hu]
  · intro hv
    have ha : toU64 v = (v + 2 ^ 64).toNat := by unfold toU64; omega
    have hlt : toU64 v < 2 ^ 64 := by omega
    refine ⟨toU64 v ^^^ (2 ^ 64 - 1), ?_, ?_, ?_⟩
    · rw [serialize_i64, if_pos hv]
    · rw [xor_all_ones hlt]
      omega
    · exact Nat.xor_lt_two_pow hlt (by norm_num)

/-- C2 witness: at `v = -5` the bias is `4` (`-5 = -1 - 4`); at `u = 7` a
single `Positive 7` header. -/
theorem claim_C2_witness :
    serialize_u64 7 = [Event.header (Header.Positive 7)] ∧
    serialize_i64 (-5) = [Event.header (Header.Negative 4)] := by
  have h := claim_C2 (-5) 7 (by norm_num) (by norm_num)
  refine ⟨h.2.2.1, ?_⟩
  obtain ⟨b, hb, hbv, hblt⟩ := h.2.1 (by norm_num)
  have hb4 : b = 4 := by omega
  rw [hb4] at hb
  exact hb

/-- C1: a 128-bit integer whose value (for non-negative) or complement bias
(for negative) fits in 64 bits serializes as a single plain `Positive` or
`Negative` header with no tag; outside that range it serializes as
`Tag(2)` (non-negative) or `Tag(3)` (negative, bias = bitwise complement,
so the byte magnitude recovers `-1 - v`), then `Bytes(Some(len))`, then the
big-endian magnitude bytes with all leading zero bytes stripped — nonempty
and with a nonzero leading byte.  The unsigned 128-bit path behaves the
same with tag 2. -/
theorem claim_C1 (v : Int) (w : Nat) (h1 : -(2 ^ 127) ≤ v) (h2 : v < 2 ^ 127)
    (h3 : w < 2 ^ 128) :
    (0 ≤ v → v < 2 ^ 64 →
      serialize_i128 v = [Event.header (Header.Positive v.toNat)]) ∧
    (v < 0 → -(2 ^ 64) ≤ v →
      serialize_i128 v = [Event.header (Header.Negative (-1 - v).toNat)]) ∧
    (2 ^ 64 ≤ v → ∃ bs,
      serialize_i128 v =
        [Event.header (Header.Tag tagBIGPOS),
         Event.header (Header.Bytes (some bs.length)), Event.raw bs] ∧
      bs ≠ [] ∧ bs.head? ≠ some 0 ∧ (beToNat bs : Int) = v) ∧
    (v < -(2 ^ 64) → ∃ bs,
      serialize_i128 v =
        [Event.header (Header.Tag tagBIGNEG),
         Event.header (Header.Bytes (some bs.length)), Event.raw bs] ∧
      bs ≠ [] ∧ bs.head? ≠ some 0 ∧ (beToNat bs : Int) = -1 - v) ∧
    (w < 2 ^ 64 → serialize_u128 w = [Event.header (Header.Positive w)]) ∧
    (2 ^ 64 ≤ w → ∃ bs,
      serialize_u128 w =
        [Event.header (Header.Tag tagBIGPOS),
         Event.header (Header.Bytes (some bs.length)), Event.raw bs] ∧
      bs ≠ [] ∧ bs.head? ≠ some 0 ∧ beToNat bs = w) := by
  refine ⟨?_, ?_, ?_, ?_, ?_, ?_⟩
  · intro hv0 hvlt
    have hnneg : ¬ v < 0 := by omega
    have hraw : toU128 v = v.toNat := by unfold toU128; omega
    have hfit : v.toNat < 2 ^ 64 := by omega
    simp only [serialize_i128, if_neg hnneg, hraw, if_pos hfit]
  · intro hv0 hvge
    have ht : toU128 v = (v + 2 ^ 128).toNat := by unfold toU128; omega
    have hlt : toU128 v < 2 ^ 128 := by omega
    have hraw : toU128 v ^^^ (2 ^ 128 - 1) = (-1 - v).toNat := by
      rw [xor_all_ones hlt]
      omega
    have hfit : (-1 - v).toNat < 2 ^ 64 := by omega
    simp only [serialize_i128, if_pos hv0, hraw, if_pos hfit]
  · intro hvge
    have hnneg : ¬ v < 0 := by omega
    have hraw : toU128 v = v.toNat := by unfold toU128; omega
    have hnfit : ¬ v.toNat < 2 ^ 64 := by omega
    have hlt : v.toNat < 2 ^ 128 := by omega
    have hne : v.toNat ≠ 0 := by omega
    obtain ⟨hval, hnil, hhead⟩ := stripZeros_beBytes16 v.toNat hlt hne
    refine ⟨stripZeros (beBytes 16 v.toNat), ?_, hnil, hhead, ?_⟩
    · simp only [serialize_i128, if_neg hnneg, hraw, if_neg hnfit]
    · rw [hval]
      omega
  · intro hvlt
    have hv0 : v < 0 := by omega
    have ht : toU128 v = (v + 2 ^ 128).toNat := by unfold toU128; omega
    have hltc : toU128 v < 2 ^ 128 := by omega
    have hraw : toU128 v ^^^ (2 ^ 128 - 1) = (-1 - v).toNat := by
      rw [xor_all_ones hltc]
      omega
    have hnfit : ¬ (-1 - v).toNat < 2 ^ 64 := by omega
    have hlt : (-1 - v).toNat < 2 ^ 128 := by omega
    have hne : (-1 - v).toNat ≠ 0 := by omega
    obtain ⟨hval, hnil, hhead⟩ := stripZeros_beBytes16 (-1 - v).toNat hlt hne
    refine ⟨stripZeros (beBytes 16 (-1 - v).toNat), ?_, hnil, hhead, ?_⟩
    · simp only [serialize_i128, if_pos hv0, hraw, if_neg hnfit]
    · rw [hval]
      omega
  · intro hwlt
    simp only [serialize_u128, if_pos hwlt, serialize_u64]
  · intro hwge
    have hnfit : ¬ w < 2 ^ 64 := by omega
    have hne : w ≠ 0 := by omega
    obtain ⟨hval, hnil, hhead⟩ := stripZeros_beBytes16 w h3 hne
    refine ⟨stripZeros (beBytes 16 w), ?_, hnil, hhead, hval⟩
    simp only [serialize_u128, if_neg hnfit]

/-- C1 witness: `2^64` is the first value past the 64-bit header range and
serializes as a positive bignum on both the signed and unsigned paths. -/
theorem claim_C1_witness :
    (∃ bs, serialize_i128 (2 ^ 64) =
      [Event.header (Header.Tag tagBIGPOS),
       Event.header (Header.Bytes (some bs.length)), Event.raw bs] ∧
      bs ≠ [] ∧ bs.head? ≠ some 0 ∧ (beToNat bs : Int) = 2 ^ 64) ∧
    (∃ bs, serialize_u128 (2 ^ 64) =
      [Event.header (Header.Tag tagBIGPOS),
       Event.header (Header.Bytes (some bs.length)), Event.raw bs] ∧
      bs ≠ [] ∧ bs.head? ≠ some 0 ∧ beToNat bs = 2 ^ 64) := by
  have h := claim_C1 (2 ^ 64) (2 ^ 64) (by norm_num) (by norm_num) (by norm_num)
  exact ⟨h.2.2.1 (by norm_num), h.2.2.2.2.2 (by norm_num)⟩

/-- C7: the known-length sequence `[1, 2, 3]` serializes to exactly the wire
bytes `83 01 02 03` — an `Array(3)` header then three minimal one-byte
`Positive` headers — and decoding those bytes with any recursion limit of at
least two yields the array `[1, 2, 3]` with no input left over. -/
theorem claim_C7 (r : Nat) :
    wireBytes (Value.VSeq (some 3)
      [Value.VU64 1, Value.VU64 2, Value.VU64 3]) = .ok [131, 1, 2, 3] ∧
    decodeD (r + 2) [131, 1, 2, 3] =
      .ok (DV.arr [DV.int 1, DV.int 2, DV.int 3], []) := by
  constructor
  · rfl
  · simp [decodeD, decodeCount, pullHeader, readBytes, beToNat]


/-- A depth-`d + 1` document decodes with remaining depth `d + 1`, consuming
exactly its own bytes and leaving any suffix untouched. -/
theorem decode_nestedDoc_ok (d : Nat) (extra : List Nat) :
    decodeD (d + 1) (nestedDoc d ++ extra) = .ok (nestedVal d, extra) := by
  induction d generalizing extra with
  | zero => simp [nestedDoc, nestedVal, decodeD, pullHeader]
  | succ d ih =>
    simp [nestedDoc, nestedVal, decodeD, decodeCount, pullHeader, ih]

/-- A depth-`d + 1` document fails with remaining depth `d`. -/
theorem decode_nestedDoc_limit (d : Nat) (extra : List Nat) :
    decodeD d (nestedDoc d ++ extra) = .error DErr.recursionLimitExceeded := by
  induction d generalizing extra with
  | zero => simp [decodeD]
  | succ d ih =>
    simp [nestedDoc, decodeD, decodeCount, pullHeader, ih]

/-- C8: with recursion limit `L`, a document nested to depth `L + 1` fails
with the recursion-limit error while limit `L + 1` decodes it (so a depth-`L`
document decodes under limit `L`); a zero remaining limit fails on every
input before consuming anything; and the depth unit spent on a nested call is
restored when it returns: two depth-`L + 1` siblings under one array need
limit `L + 2`, not `2L + 3`, so the limit is call-stack-scoped rather than
global. -/
theorem claim_C8 (L : Nat) :
    decodeD L (nestedDoc L) = .error DErr.recursionLimitExceeded ∧
    decodeD (L + 1) (nestedDoc L) = .ok (nestedVal L, []) ∧
    decodeD (L + 2) (130 :: (nestedDoc L ++ nestedDoc L)) =
      .ok (DV.arr [nestedVal L, nestedVal L], []) ∧
    (∀ input, decodeD 0 input = .error DErr.recursionLimitExceeded) := by
  have hq := decode_nestedDoc_limit L []
  have hp := decode_nestedDoc_ok L []
  rw [List.append_nil] at hq hp
  refine ⟨hq, hp, ?_, fun input => by simp [decodeD]⟩
  have h1 := decode_nestedDoc_ok L (nestedDoc L)
  simp [decodeD, decodeCount, pullHeader, h1, hp]

end Ciborium
